import Mathlib

set_option maxHeartbeats 1000000

/-!
Shallow embedding of `src/app.py` (Mini-Budget-App): a `BudgetTracker` that
stores expense records in a JSON file and offers add / weekly-summary /
list-all operations behind an interactive menu loop.  Every definition below
is translated from the source file; doc comments point at the Python
construct each one models.
-/

/-- Model of a Python `float` value: an exact rational for finite values plus
the special values `inf`, `-inf` and `nan`.  Rounding of decimals to binary
doubles is abstracted away (finite values are kept exact); no claim under
study depends on rounding. -/
inductive PyFloat where
  | finite (q : ℚ)
  | inf
  | negInf
  | nan
deriving DecidableEq

/-- Python `float` addition on the model: exact addition on finite values and
the IEEE special-value rules for `inf`, `-inf` and `nan`. -/
def PyFloat.add : PyFloat → PyFloat → PyFloat
  | .nan, _ => .nan
  | _, .nan => .nan
  | .inf, .negInf => .nan
  | .negInf, .inf => .nan
  | .inf, _ => .inf
  | _, .inf => .inf
  | .negInf, _ => .negInf
  | _, .negInf => .negInf
  | .finite a, .finite b => .finite (a + b)

/-- Python unary negation on the float model (used by `float("-5")`). -/
def PyFloat.neg : PyFloat → PyFloat
  | .finite q => .finite (-q)
  | .inf => .negInf
  | .negInf => .inf
  | .nan => .nan

instance : Add PyFloat := ⟨PyFloat.add⟩

instance : Zero PyFloat := ⟨PyFloat.finite 0⟩

instance : AddCommMonoid PyFloat where
  add_assoc a b c := by
    show PyFloat.add (PyFloat.add a b) c = PyFloat.add a (PyFloat.add b c)
    cases a <;> cases b <;> cases c <;>
      first
      | rfl
      | exact congrArg PyFloat.finite (add_assoc _ _ _)
  zero_add a := by
    show PyFloat.add (PyFloat.finite 0) a = a
    cases a <;> first | rfl | exact congrArg PyFloat.finite (zero_add _)
  add_zero a := by
    show PyFloat.add a (PyFloat.finite 0) = a
    cases a <;> first | rfl | exact congrArg PyFloat.finite (add_zero _)
  add_comm a b := by
    show PyFloat.add a b = PyFloat.add b a
    cases a <;> cases b <;>
      first | rfl | exact congrArg PyFloat.finite (add_comm _ _)
  nsmul := nsmulRec

/-- A calendar date, as produced by `datetime.now().date()`. -/
structure Date where
  year : ℕ
  month : ℕ
  day : ℕ
deriving DecidableEq

/-- Gregorian leap-year rule (as in Python's `calendar` / `datetime`). -/
def isLeap (y : ℕ) : Bool :=
  y % 4 == 0 && (y % 100 != 0 || y % 400 == 0)

/-- Number of days in month `m` of year `y` (months are 1-based). -/
def daysInMonth (y m : ℕ) : ℕ :=
  if m = 2 then (if isLeap y then 29 else 28)
  else if m = 4 ∨ m = 6 ∨ m = 9 ∨ m = 11 then 30
  else 31

/-- Days in year `y` strictly before month `m`. -/
def daysBeforeMonth (y m : ℕ) : ℕ :=
  (List.range (m - 1)).foldl (fun acc i => acc + daysInMonth y (i + 1)) 0

/-- Days before January 1 of year `y` in the proleptic Gregorian calendar
(`datetime.date._days_before_year`). -/
def daysBeforeYear (y : ℕ) : ℕ :=
  let py := y - 1
  py * 365 + py / 4 - py / 100 + py / 400

/-- Proleptic Gregorian ordinal of a date, with 0001-01-01 = 1; this is
exactly Python's `date.toordinal()`.  Python compares `date` objects the way
their ordinals compare, so the embedding uses ordinals wherever the source
compares or shifts dates. -/
def Date.toOrdinal (d : Date) : ℕ :=
  daysBeforeYear d.year + daysBeforeMonth d.year d.month + d.day

/-- Python's `date.weekday()`: Monday = 0 … Sunday = 6.  0001-01-01
(ordinal 1) was a Monday. -/
def pyWeekday (d : Date) : ℕ :=
  (d.toOrdinal + 6) % 7

/-- The dates `datetime` can actually hand to `strftime('%Y-%m-%d')` with an
unambiguous 4-digit year: valid month/day and a 4-digit year.  (Python
allows years 1–9999; below 1000 the platform `strftime` may not zero-pad,
so the embedding restricts to the 4-digit range, which covers every date
`datetime.now()` returns.) -/
def ValidDate (d : Date) : Prop :=
  1000 ≤ d.year ∧ d.year ≤ 9999 ∧ 1 ≤ d.month ∧ d.month ≤ 12 ∧
    1 ≤ d.day ∧ d.day ≤ daysInMonth d.year d.month

instance (d : Date) : Decidable (ValidDate d) := by
  unfold ValidDate; infer_instance

/-- The ASCII digit character for `n % 10`. -/
def digitChar (n : ℕ) : Char :=
  Char.ofNat (48 + n % 10)

/-- Numeric value of an ASCII digit character, `none` for non-digits. -/
def digitVal (c : Char) : Option ℕ :=
  if c.isDigit then some (c.toNat - 48) else none

/-- Model of `datetime.now().strftime('%Y-%m-%d')`: zero-padded
`YYYY-MM-DD`. -/
def formatDate (d : Date) : String :=
  String.mk [digitChar (d.year / 1000), digitChar (d.year / 100),
    digitChar (d.year / 10), digitChar d.year, '-',
    digitChar (d.month / 10), digitChar d.month, '-',
    digitChar (d.day / 10), digitChar d.day]

/-- Model of `datetime.strptime(s, '%Y-%m-%d').date()` on the fixed-width
`YYYY-MM-DD` form the program itself writes: four year digits, two month
digits, two day digits, with the same range validation `strptime` and the
`date` constructor perform (month 1–12, day within the month, year ≥ 1).
Returns `none` where Python raises `ValueError`. -/
def parseDateChars : List Char → Option Date
  | [y1, y2, y3, y4, s1, m1, m2, s2, d1, d2] =>
    if s1 = '-' ∧ s2 = '-' then
      match digitVal y1, digitVal y2, digitVal y3, digitVal y4,
          digitVal m1, digitVal m2, digitVal d1, digitVal d2 with
      | some a, some b, some c, some e, some f, some g, some h, some i =>
        let y := ((a * 10 + b) * 10 + c) * 10 + e
        let mo := f * 10 + g
        let da := h * 10 + i
        if 1 ≤ y ∧ 1 ≤ mo ∧ mo ≤ 12 ∧ 1 ≤ da ∧ da ≤ daysInMonth y mo then
          some ⟨y, mo, da⟩
        else none
      | _, _, _, _, _, _, _, _ => none
    else none
  | _ => none

/-- Model of `datetime.strptime(s, '%Y-%m-%d').date()` (see
`parseDateChars`). -/
def parseDate (s : String) : Option Date :=
  parseDateChars s.toList

/-- `BudgetTracker.get_week_range`: Monday-to-Sunday window of the week
containing `today`, returned as the `toordinal` values of the two `date`
objects the Python function returns (`start = today - timedelta(days=today.weekday())`,
`end = start + timedelta(days=6)`). -/
def getWeekRange (today : Date) : ℤ × ℤ :=
  let start : ℤ := (today.toOrdinal : ℤ) - (pyWeekday today : ℤ)
  (start, start + 6)

/-- One stored expense record, the dict built by `BudgetTracker.add_expense`:
`{'date': ..., 'amount': ..., 'category': ..., 'description': ...}`.
`description` is `Option` because a hand-edited JSON file may lack the key
(`list_all_expenses` reads it with `.get('description', '')`); `add_expense`
always writes it. -/
structure Expense where
  date : String
  amount : PyFloat
  category : String
  description : Option String
deriving DecidableEq

/-- A JSON value, as far as this program's data goes. -/
inductive Json where
  | str (s : String)
  | num (v : PyFloat)
  | arr (items : List Json)
  | obj (fields : List (String × Json))

/-- JSON encoding of one record, with the keys in the insertion order of the
dict literal in `add_expense` (`json.dump` writes dict keys in that order);
an absent description omits the key. -/
def encodeExpense (e : Expense) : Json :=
  Json.obj ([("date", Json.str e.date), ("amount", Json.num e.amount),
    ("category", Json.str e.category)] ++
    (match e.description with
     | some s => [("description", Json.str s)]
     | none => []))

/-- JSON encoding of the whole store: `json.dump(self.expenses, f)`. -/
def encodeExpenses (es : List Expense) : Json :=
  Json.arr (es.map encodeExpense)

/-- First binding of a key in a JSON object (Python dict lookup). -/
def lookupField : List (String × Json) → String → Option Json
  | [], _ => none
  | (k, v) :: rest, key => if k = key then some v else lookupField rest key

/-- Read one record back out of a JSON value (the shape `json.load` returns
for an element written by `save_expenses`). -/
def decodeExpense : Json → Option Expense
  | Json.obj fs =>
    match lookupField fs "date", lookupField fs "amount",
        lookupField fs "category" with
    | some (Json.str d), some (Json.num a), some (Json.str c) =>
      some ⟨d, a, c,
        match lookupField fs "description" with
        | some (Json.str s) => some s
        | _ => none⟩
    | _, _, _ => none
  | _ => none

/-- Read each element of a JSON array back as a record, failing if any
element does not decode. -/
def decodeExpenseList : List Json → Option (List Expense)
  | [] => some []
  | j :: rest =>
    match decodeExpense j, decodeExpenseList rest with
    | some e, some es => some (e :: es)
    | _, _ => none

/-- Read a whole store back out of a JSON value. -/
def decodeExpenses : Json → Option (List Expense)
  | Json.arr items => decodeExpenseList items
  | _ => none

/-- Content of the backing file when it exists.  `records es` stands for a
JSON text that parses to exactly the record list `es` (the only text the
program itself ever writes — see the `decodeExpenses`/`encodeExpenses`
round-trip theorem); `malformed` stands for any text `json.load` rejects. -/
inductive FileContent where
  | records (es : List Expense)
  | malformed
deriving DecidableEq

/-- The backing file: `none` when `self.filename` does not exist. -/
def FileState : Type := Option FileContent

instance : DecidableEq FileState := by
  unfold FileState; infer_instance

/-- Error raised by `json.load` on malformed content
(`json.JSONDecodeError`); the program never catches it. -/
inductive ParseErr where
  | parseError
deriving DecidableEq

/-- `BudgetTracker.load_expenses`: parsed contents if the file exists, `[]`
if it does not, and an uncaught `JSONDecodeError` on malformed content. -/
def loadExpenses : FileState → Except ParseErr (List Expense)
  | none => Except.ok []
  | some (FileContent.records es) => Except.ok es
  | some FileContent.malformed => Except.error ParseErr.parseError

/-- `BudgetTracker.save_expenses`: rewrite the whole file with the current
in-memory list. -/
def saveExpenses (es : List Expense) : FileState :=
  some (FileContent.records es)

/-- The record dict `add_expense` builds: today's date formatted
`'%Y-%m-%d'`, `float(amount)` (the identity here, since the interactive
caller already converted the input with `float`), and the given category and
description. -/
def mkExpenseRecord (today : Date) (amount : PyFloat)
    (category description : String) : Expense :=
  ⟨formatDate today, amount, category, some description⟩

/-- `BudgetTracker.add_expense`: append the new record to `self.expenses`
and rewrite the backing file via `save_expenses`. -/
def addExpense (es : List Expense) (amount : PyFloat)
    (category description : String) (today : Date) :
    List Expense × FileState :=
  let es' := es ++ [mkExpenseRecord today amount category description]
  (es', saveExpenses es')

/-- The filter test in `weekly_summary`'s loop:
`start_date <= expense_date <= end_date` after `strptime` on the record's
date (false is never reached on an unparsable date — the loop raises
instead, see `filterWeekly`). -/
def inWindow (today : Date) (e : Expense) : Bool :=
  match parseDate e.date with
  | none => false
  | some d =>
    decide ((getWeekRange today).1 ≤ (d.toOrdinal : ℤ) ∧
      (d.toOrdinal : ℤ) ≤ (getWeekRange today).2)

/-- The `weekly_expenses` loop of `weekly_summary`: walk `self.expenses` in
order, parse each record's date with `strptime` (raising `ValueError` on the
first record that does not parse), and keep the records inside the window. -/
def filterWeekly : List Expense → Date → Except ParseErr (List Expense)
  | [], _ => Except.ok []
  | e :: rest, today =>
    match parseDate e.date with
    | none => Except.error ParseErr.parseError
    | some d =>
      match filterWeekly rest today with
      | Except.error err => Except.error err
      | Except.ok ws =>
        Except.ok
          (if (getWeekRange today).1 ≤ (d.toOrdinal : ℤ) ∧
              (d.toOrdinal : ℤ) ≤ (getWeekRange today).2
           then e :: ws else ws)

/-- One step of `category_totals[expense['category']] += expense['amount']`
on a `defaultdict(float)` kept as an insertion-ordered association list.
A missing key starts at `float()` = `0.0`, so the first accumulation stores
`0.0 + a`; on the float model (which has no negative zero) `0.0 + a = a` in
every case, and the base case stores `a` directly. -/
def addToGroup : List (String × PyFloat) → String → PyFloat →
    List (String × PyFloat)
  | [], c, a => [(c, a)]
  | (c', v) :: rest, c, a =>
    if c' = c then (c', v + a) :: rest
    else (c', v) :: addToGroup rest c a

/-- The `category_totals` dict after the accumulation loop of
`weekly_summary`, keys in insertion order as a Python dict keeps them. -/
def groupTotals (weekly : List Expense) : List (String × PyFloat) :=
  weekly.foldl (fun acc e => addToGroup acc e.category e.amount) []

/-- Python's `str` comparison `s < t`: lexicographic on code points.  This
is the order `sorted` uses both on the date strings in `list_all_expenses`
and on the category keys in `weekly_summary`; `ltChars_iff_lt` below shows
it coincides with Lean's `String` order. -/
def ltChars : List Char → List Char → Bool
  | [], [] => false
  | [], _ :: _ => true
  | _ :: _, [] => false
  | a :: as, b :: bs =>
    if a < b then true
    else if b < a then false
    else ltChars as bs

/-- Stable insertion step for `sorted(category_totals.items())`, ascending
by key (keys of a dict are distinct, so only the key ever decides). -/
def insertPairAsc (p : String × PyFloat) :
    List (String × PyFloat) → List (String × PyFloat)
  | [] => [p]
  | q :: rest =>
    if ltChars q.1.data p.1.data then q :: insertPairAsc p rest
    else p :: q :: rest

/-- `sorted(category_totals.items())`: the category/total pairs in ascending
key order (Python's `sorted` is stable; with distinct keys any stable sort
produces this list). -/
def sortPairsByKey : List (String × PyFloat) → List (String × PyFloat)
  | [] => []
  | p :: rest => insertPairAsc p (sortPairsByKey rest)

/-- The `total` accumulation loop of `weekly_summary`: `total = 0`, then
`total += amount` over the sorted category totals. -/
def sumSortedTotals (totals : List (String × PyFloat)) : PyFloat :=
  totals.foldl (fun acc p => acc + p.2) 0

/-- `BudgetTracker.weekly_summary`, with printing replaced by the data it
prints: `Except.error` when `strptime` raises on a stored date (the
exception escapes the method), `ok none` for the "No expenses recorded this
week." branch, and otherwise `ok (some (sortedCategoryTotals, grandTotal))`. -/
def weeklySummary (es : List Expense) (today : Date) :
    Except ParseErr (Option (List (String × PyFloat) × PyFloat)) :=
  match filterWeekly es today with
  | Except.error err => Except.error err
  | Except.ok weekly =>
    if weekly = [] then Except.ok none
    else
      let totals := sortPairsByKey (groupTotals weekly)
      Except.ok (some (totals, sumSortedTotals totals))

/-- Grand total of a `weeklySummary` result (`0` when the no-expenses
message was printed instead of a table). -/
def totalOfOpt : Option (List (String × PyFloat) × PyFloat) → PyFloat
  | none => 0
  | some p => p.2

/-- Category-total table of a `weeklySummary` result (`[]` when the
no-expenses message was printed). -/
def tableOfOpt : Option (List (String × PyFloat) × PyFloat) →
    List (String × PyFloat)
  | none => []
  | some p => p.1

/-- Stable insertion step for
`sorted(self.expenses, key=lambda x: x['date'], reverse=True)`: walk past
records with a strictly later date; stop at the first record whose date is
not later, so that among equal dates the earlier-inserted record stays
first (Python's sort is stable). -/
def insertByDateDesc (e : Expense) : List Expense → List Expense
  | [] => [e]
  | x :: xs =>
    if ltChars e.date.data x.date.data then x :: insertByDateDesc e xs
    else e :: x :: xs

/-- `sorted(self.expenses, key=lambda x: x['date'], reverse=True)` as a
stable descending insertion sort (a stable sort under a total preorder has a
unique result, so this is the list Python's Timsort returns). -/
def sortByDateDesc : List Expense → List Expense
  | [] => []
  | e :: rest => insertByDateDesc e (sortByDateDesc rest)

/-- `expense.get('description', '')[:28]` in `list_all_expenses`: a missing
key reads as `''`, then the first 28 characters are kept. -/
def truncatedDesc (e : Expense) : String :=
  String.mk ((e.description.getD "").data.take 28)

/-- One printed row of `list_all_expenses`: date, category, amount, and the
truncated description. -/
def renderRow (e : Expense) : String × String × PyFloat × String :=
  (e.date, e.category, e.amount, truncatedDesc e)

/-- `BudgetTracker.list_all_expenses`, with printing replaced by the data it
prints: `none` for the "No expenses recorded yet." branch, otherwise the
rows in the order the sorted loop prints them. -/
def listAllRows (es : List Expense) :
    Option (List (String × String × PyFloat × String)) :=
  if es = [] then none
  else some ((sortByDateDesc es).map renderRow)

/-- Whitespace stripped by Python's `float(str)` before parsing. -/
def isWs (c : Char) : Bool :=
  c = ' ' || c = '\t' || c = '\n' || c = '\r'

/-- Integer value of a non-empty all-digit character list. -/
def parseDigits : List Char → Option ℕ
  | [] => none
  | cs =>
    if cs.all Char.isDigit then
      some (cs.foldl (fun acc c => acc * 10 + (c.toNat - 48)) 0)
    else none

/-- The unsigned part of Python's `float(str)` grammar, restricted to the
forms the program can meet: `inf`/`infinity`/`nan` (case-insensitive) and
decimal numerals `digits`, `digits.digits`, `digits.`, `.digits`.
(Exponents and underscore separators are omitted; no claim depends on
them.) -/
def parseUnsignedFloat (cs : List Char) : Option PyFloat :=
  let low := cs.map Char.toLower
  if low = "inf".toList ∨ low = "infinity".toList then some PyFloat.inf
  else if low = "nan".toList then some PyFloat.nan
  else
    match cs.splitOn '.' with
    | [ds] => (parseDigits ds).map (fun n => PyFloat.finite n)
    | [is, fs] =>
      if is.all Char.isDigit ∧ fs.all Char.isDigit ∧ (is ≠ [] ∨ fs ≠ []) then
        match parseDigits (is ++ fs) with
        | some n => some (PyFloat.finite ((n : ℚ) / (10 : ℚ) ^ fs.length))
        | none => none
      else none
    | _ => none

/-- Model of Python's `float(str)` as called on the interactive amount
input: strip surrounding whitespace, honour an optional sign, and parse the
unsigned rest; `none` models the `ValueError` the menu loop catches. -/
def pyFloatOfString (s : String) : Option PyFloat :=
  let cs := ((s.toList.dropWhile isWs).reverse.dropWhile isWs).reverse
  match cs with
  | '+' :: rest => parseUnsignedFloat rest
  | '-' :: rest => (parseUnsignedFloat rest).map PyFloat.neg
  | rest => parseUnsignedFloat rest

/-- What one pass of the `while True` menu loop in `main` does next:
go round again, `break` out (choice 4), or die on an exception no handler
catches (a `ValueError` from `strptime` inside `weekly_summary`). -/
inductive StepOut where
  | cont
  | exit
  | fatal
deriving DecidableEq

/-- One pass of the menu loop in `main`, with the console inputs it would
read as arguments and printing reduced to whether the "Invalid amount"
message is shown.  Choice `'1'` converts the amount with `float(...)` inside
a `try`: on `ValueError` the store and file are untouched and the loop
continues; otherwise `add_expense` runs.  Choices `'2'`/`'3'` only read the
store.  Choice `'4'` breaks the loop; anything else re-prompts. -/
def menuStep (es : List Expense) (file : FileState) (choice : String)
    (amountInput category description : String) (today : Date) :
    List Expense × FileState × Bool × StepOut :=
  if choice = "1" then
    match pyFloatOfString amountInput with
    | none => (es, file, true, StepOut.cont)
    | some a =>
      let r := addExpense es a category description today
      (r.1, r.2, false, StepOut.cont)
  else if choice = "2" then
    match weeklySummary es today with
    | Except.ok _ => (es, file, false, StepOut.cont)
    | Except.error _ => (es, file, false, StepOut.fatal)
  else if choice = "3" then (es, file, false, StepOut.cont)
  else if choice = "4" then (es, file, false, StepOut.exit)
  else (es, file, false, StepOut.cont)

/-- The console inputs of one successful add: amount (already through
`float`), category, description, and the date `datetime.now()` returned. -/
structure AddCall where
  amount : PyFloat
  category : String
  description : String
  today : Date

/-- Run a sequence of `add_expense` calls against a store (the only
mutations a `BudgetTracker` ever performs on `self.expenses`). -/
def runAdds (es : List Expense) : List AddCall → List Expense
  | [] => es
  | c :: rest =>
    runAdds (addExpense es c.amount c.category c.description c.today).1 rest

/-! ### Helper lemmas -/

theorem ltChars_iff_lex (as bs : List Char) :
    ltChars as bs = true ↔ List.Lex (· < ·) as bs := by
  induction as generalizing bs with
  | nil =>
    cases bs with
    | nil => exact iff_of_false (by simp [ltChars]) (List.Lex.not_nil_right _ _)
    | cons b bs => exact iff_of_true rfl List.Lex.nil
  | cons a as ih =>
    cases bs with
    | nil => exact iff_of_false (by simp [ltChars]) (List.Lex.not_nil_right _ _)
    | cons b bs =>
      rcases lt_trichotomy a b with hab | hab | hab
      · exact iff_of_true (by simp [ltChars, hab]) (List.Lex.rel hab)
      · subst hab
        simp only [ltChars, if_neg (lt_irrefl a)]
        exact (ih bs).trans List.Lex.cons_iff.symm
      · refine iff_of_false (by simp [ltChars, asymm hab, hab]) ?_
        intro hcon
        cases hcon with
        | cons h => exact absurd hab (lt_irrefl _)
        | rel h => exact absurd hab (asymm h)

theorem ltChars_iff_lt (s t : String) :
    ltChars s.data t.data = true ↔ s < t := by
  rw [String.lt_iff_toList_lt]
  exact ltChars_iff_lex s.data t.data

theorem ltChars_eq_false_iff_le (s t : String) :
    ltChars s.data t.data = false ↔ t ≤ s := by
  rw [← not_lt, ← ltChars_iff_lt]
  simp

theorem daysInMonth_le (y m : ℕ) : daysInMonth y m ≤ 31 := by
  unfold daysInMonth
  split_ifs <;> norm_num

theorem digitVal_of_lt_ten (r : ℕ) (h : r < 10) :
    digitVal (Char.ofNat (48 + r)) = some r := by
  interval_cases r <;> rfl

theorem digitVal_digitChar (k : ℕ) :
    digitVal (digitChar k) = some (k % 10) :=
  digitVal_of_lt_ten (k % 10) (Nat.mod_lt _ (by norm_num))

theorem parseDate_formatDate (d : Date) (h : ValidDate d) :
    parseDate (formatDate d) = some d := by
  obtain ⟨hy1, hy2, hm1, hm2, hd1, hd2⟩ := h
  have hday : d.day ≤ 31 := le_trans hd2 (daysInMonth_le _ _)
  have hlist : (formatDate d).toList =
      [digitChar (d.year / 1000), digitChar (d.year / 100),
        digitChar (d.year / 10), digitChar d.year, '-',
        digitChar (d.month / 10), digitChar d.month, '-',
        digitChar (d.day / 10), digitChar d.day] := rfl
  have hy : ((d.year / 1000 % 10 * 10 + d.year / 100 % 10) * 10 +
      d.year / 10 % 10) * 10 + d.year % 10 = d.year := by omega
  have hm : d.month / 10 % 10 * 10 + d.month % 10 = d.month := by omega
  have hd : d.day / 10 % 10 * 10 + d.day % 10 = d.day := by omega
  rw [parseDate, hlist, parseDateChars]
  rw [if_pos (⟨rfl, rfl⟩ : ('-' : Char) = '-' ∧ ('-' : Char) = '-')]
  simp only [digitVal_digitChar, hy, hm, hd]
  rw [if_pos (⟨by omega, hm1, hm2, hd1, hd2⟩ :
    1 ≤ d.year ∧ 1 ≤ d.month ∧ d.month ≤ 12 ∧ 1 ≤ d.day ∧
      d.day ≤ daysInMonth d.year d.month)]

theorem decodeExpense_encodeExpense (e : Expense) :
    decodeExpense (encodeExpense e) = some e := by
  obtain ⟨dt, am, ct, ds⟩ := e
  cases ds <;> rfl

theorem decodeExpenses_encodeExpenses (es : List Expense) :
    decodeExpenses (encodeExpenses es) = some es := by
  induction es with
  | nil => rfl
  | cons e rest ih =>
    simp only [encodeExpenses, decodeExpenses, List.map_cons,
      decodeExpenseList, decodeExpense_encodeExpense] at ih ⊢
    simp [ih]

theorem filterWeekly_ok (es : List Expense) (t : Date) (ws : List Expense)
    (h : filterWeekly es t = Except.ok ws) :
    ws = es.filter (inWindow t) := by
  induction es generalizing ws with
  | nil =>
    simp only [filterWeekly, Except.ok.injEq] at h
    simp [← h]
  | cons e rest ih =>
    rw [filterWeekly] at h
    cases hp : parseDate e.date with
    | none => rw [hp] at h; exact absurd h (by simp)
    | some dd =>
      rw [hp] at h
      cases hr : filterWeekly rest t with
      | error err => rw [hr] at h; exact absurd h (by simp)
      | ok ws' =>
        rw [hr] at h
        simp only [Except.ok.injEq] at h
        subst h
        rw [List.filter_cons]
        have hw : inWindow t e =
            decide ((getWeekRange t).1 ≤ (dd.toOrdinal : ℤ) ∧
              (dd.toOrdinal : ℤ) ≤ (getWeekRange t).2) := by
          rw [inWindow, hp]
        rw [hw, ← ih ws' hr]
        by_cases hc : (getWeekRange t).1 ≤ (dd.toOrdinal : ℤ) ∧
            (dd.toOrdinal : ℤ) ≤ (getWeekRange t).2
        · simp [hc]
        · simp [hc]

theorem filterWeekly_subset_window (es : List Expense) (t : Date) (e : Expense)
    (he : e ∈ es.filter (inWindow t)) : inWindow t e = true :=
  (List.mem_filter.mp he).2

theorem sumValues_addToGroup (acc : List (String × PyFloat)) (c : String)
    (a : PyFloat) :
    ((addToGroup acc c a).map Prod.snd).sum = (acc.map Prod.snd).sum + a := by
  induction acc with
  | nil => simp [addToGroup]
  | cons q rest ih =>
    obtain ⟨c', v⟩ := q
    rw [addToGroup]
    by_cases hc : c' = c
    · rw [if_pos hc]
      simp [add_assoc, add_comm, add_left_comm]
    · rw [if_neg hc]
      simp only [List.map_cons, List.sum_cons, ih]
      rw [← add_assoc]

theorem sumValues_groupFold (l : List Expense) (acc : List (String × PyFloat)) :
    ((l.foldl (fun acc e => addToGroup acc e.category e.amount) acc).map
        Prod.snd).sum =
      (acc.map Prod.snd).sum + (l.map Expense.amount).sum := by
  induction l generalizing acc with
  | nil => simp
  | cons e rest ih =>
    simp only [List.foldl_cons, List.map_cons, List.sum_cons, ih,
      sumValues_addToGroup]
    rw [add_assoc]

theorem sumValues_groupTotals (l : List Expense) :
    ((groupTotals l).map Prod.snd).sum = (l.map Expense.amount).sum := by
  rw [groupTotals, sumValues_groupFold]
  simp

theorem insertPairAsc_perm (p : String × PyFloat)
    (l : List (String × PyFloat)) :
    List.Perm (insertPairAsc p l) (p :: l) := by
  induction l with
  | nil => rfl
  | cons q rest ih =>
    rw [insertPairAsc]
    by_cases hq : ltChars q.1.data p.1.data
    · rw [if_pos hq]
      exact ((ih.cons q).trans (List.Perm.swap p q rest))
    · rw [if_neg hq]

theorem sortPairsByKey_perm (l : List (String × PyFloat)) :
    List.Perm (sortPairsByKey l) l := by
  induction l with
  | nil => rfl
  | cons p rest ih =>
    rw [sortPairsByKey]
    exact (insertPairAsc_perm p (sortPairsByKey rest)).trans (ih.cons p)

theorem sumSortedTotals_foldl (l : List (String × PyFloat)) (acc : PyFloat) :
    l.foldl (fun acc p => acc + p.2) acc = acc + (l.map Prod.snd).sum := by
  induction l generalizing acc with
  | nil => simp
  | cons p rest ih =>
    simp only [List.foldl_cons, List.map_cons, List.sum_cons, ih]
    rw [add_assoc]

theorem sumSortedTotals_eq_sum (l : List (String × PyFloat)) :
    sumSortedTotals l = (l.map Prod.snd).sum := by
  rw [sumSortedTotals, sumSortedTotals_foldl]
  simp

theorem mem_insertByDateDesc (y e : Expense) (l : List Expense) :
    y ∈ insertByDateDesc e l ↔ y = e ∨ y ∈ l := by
  induction l with
  | nil => simp [insertByDateDesc]
  | cons x xs ih =>
    rw [insertByDateDesc]
    by_cases hc : ltChars e.date.data x.date.data
    · rw [if_pos hc]
      simp [ih]
      tauto
    · rw [if_neg hc]
      simp

theorem pairwise_insertByDateDesc (e : Expense) (l : List Expense)
    (h : List.Pairwise (fun a b => b.date ≤ a.date) l) :
    List.Pairwise (fun a b => b.date ≤ a.date) (insertByDateDesc e l) := by
  induction l with
  | nil => simp [insertByDateDesc]
  | cons x xs ih =>
    rw [insertByDateDesc]
    rcases List.pairwise_cons.mp h with ⟨hx, hxs⟩
    by_cases hc : ltChars e.date.data x.date.data
    · rw [if_pos hc]
      refine List.pairwise_cons.mpr ⟨?_, ih hxs⟩
      intro y hy
      rcases (mem_insertByDateDesc y e xs).mp hy with rfl | hy
      · exact le_of_lt ((ltChars_iff_lt _ _).mp hc)
      · exact hx y hy
    · rw [if_neg hc]
      have hle : x.date ≤ e.date :=
        (ltChars_eq_false_iff_le _ _).mp (Bool.of_not_eq_true hc)
      refine List.pairwise_cons.mpr ⟨?_, h⟩
      intro y hy
      rcases List.mem_cons.mp hy with rfl | hy
      · exact hle
      · exact le_trans (hx y hy) hle

theorem pairwise_sortByDateDesc (l : List Expense) :
    List.Pairwise (fun a b => b.date ≤ a.date) (sortByDateDesc l) := by
  induction l with
  | nil => simp [sortByDateDesc]
  | cons e rest ih =>
    rw [sortByDateDesc]
    exact pairwise_insertByDateDesc e _ ih

theorem filter_insertByDateDesc (e : Expense) (l : List Expense) (d : String) :
    (insertByDateDesc e l).filter (fun x => x.date == d) =
      if e.date = d then e :: l.filter (fun x => x.date == d)
      else l.filter (fun x => x.date == d) := by
  induction l with
  | nil =>
    rw [insertByDateDesc]
    by_cases hd : e.date = d <;> simp [List.filter_cons, hd]
  | cons x xs ih =>
    rw [insertByDateDesc]
    by_cases hc : ltChars e.date.data x.date.data
    · rw [if_pos hc]
      by_cases hd : e.date = d
      · have hxd : x.date ≠ d := by
          intro hxd
          have hlt : e.date < x.date := (ltChars_iff_lt _ _).mp hc
          rw [hxd, ← hd] at hlt
          exact lt_irrefl _ hlt
        rw [List.filter_cons, List.filter_cons]
        simp only [hxd, beq_iff_eq, if_neg hxd]
        rw [ih, if_pos hd, if_pos hd]
        simp
      · rw [List.filter_cons, List.filter_cons]
        rw [ih, if_neg hd, if_neg hd]
    · rw [if_neg hc]
      by_cases hd : e.date = d
      · rw [List.filter_cons, if_pos (by simpa using hd), if_pos hd]
      · rw [List.filter_cons, if_neg (by simpa using hd), if_neg hd]

theorem filter_sortByDateDesc (l : List Expense) (d : String) :
    (sortByDateDesc l).filter (fun x => x.date == d) =
      l.filter (fun x => x.date == d) := by
  induction l with
  | nil => rfl
  | cons e rest ih =>
    rw [sortByDateDesc, filter_insertByDateDesc, List.filter_cons]
    by_cases hd : e.date = d
    · rw [if_pos hd, ih, if_pos (by simpa using hd)]
    · rw [if_neg hd, ih, if_neg (by simpa using hd)]

theorem mem_runAdds (calls : List AddCall) (es : List Expense) (e : Expense)
    (he : e ∈ runAdds es calls) :
    e ∈ es ∨ ∃ c, c ∈ calls ∧
      e = mkExpenseRecord c.today c.amount c.category c.description := by
  induction calls generalizing es with
  | nil => exact Or.inl he
  | cons c rest ih =>
    rw [runAdds] at he
    rcases ih _ he with hmem | ⟨c', hc', rfl⟩
    · rw [addExpense] at hmem
      rcases List.mem_append.mp hmem with hmem | hmem
      · exact Or.inl hmem
      · refine Or.inr ⟨c, List.mem_cons_self _ _, ?_⟩
        simpa using hmem
    · exact Or.inr ⟨c', List.mem_cons_of_mem _ hc', rfl⟩

theorem PyFloat.finite_add (a b : ℚ) :
    PyFloat.finite a + PyFloat.finite b = PyFloat.finite (a + b) := rfl

/-! ### Claim theorems -/

/-- C1: for every store state for which `weekly_summary` completes, the
grand total it prints equals the sum of the `amount` fields of exactly the
records whose date falls in the Monday-to-Sunday window containing today
(`start = today - today.weekday()` days, `end = start + 6` days, both ends
inclusive), and the per-category table is built from exactly those records,
so records outside the window contribute to neither. -/
theorem C1_weeklySummary_total (es : List Expense) (t : Date)
    (res : Option (List (String × PyFloat) × PyFloat))
    (h : weeklySummary es t = Except.ok res) :
    totalOfOpt res = ((es.filter (inWindow t)).map Expense.amount).sum ∧
    (res = none → es.filter (inWindow t) = []) ∧
    tableOfOpt res = sortPairsByKey (groupTotals (es.filter (inWindow t))) := by
  rw [weeklySummary] at h
  cases hf : filterWeekly es t with
  | error err => rw [hf] at h; exact absurd h (by simp)
  | ok weekly =>
    rw [hf] at h
    have h' : (if weekly = [] then (Except.ok none :
          Except ParseErr (Option (List (String × PyFloat) × PyFloat)))
        else Except.ok (some (sortPairsByKey (groupTotals weekly),
          sumSortedTotals (sortPairsByKey (groupTotals weekly))))) =
        Except.ok res := h
    have hw : weekly = es.filter (inWindow t) := filterWeekly_ok es t weekly hf
    by_cases hemp : weekly = []
    · rw [if_pos hemp] at h'
      have hres : res = none := by simpa using h'.symm
      subst hres
      refine ⟨?_, fun _ => by rw [← hw, hemp], ?_⟩
      · rw [← hw, hemp]
        rfl
      · rw [← hw, hemp]
        rfl
    · rw [if_neg hemp] at h'
      simp only [Except.ok.injEq] at h'
      subst h'
      refine ⟨?_, by simp, ?_⟩
      · show sumSortedTotals (sortPairsByKey (groupTotals weekly)) = _
        rw [sumSortedTotals_eq_sum]
        rw [List.Perm.sum_eq
          ((sortPairsByKey_perm (groupTotals weekly)).map Prod.snd)]
        rw [sumValues_groupTotals, hw]
      · show sortPairsByKey (groupTotals weekly) = _
        rw [hw]

/-- C1 witness: a concrete store with two in-window records (2026-10-07 and
2026-10-05; 2026-10-07 is a Wednesday, so the window is 10-05 … 10-11) and
one out-of-window record from September; the summary table and grand total
come out exactly as the theorem states. -/
theorem C1_weeklySummary_total_witness :
    weeklySummary
      [⟨"2026-10-07", PyFloat.finite 10, "Food", some "coffee"⟩,
       ⟨"2026-09-01", PyFloat.finite 99, "Food", some "old"⟩,
       ⟨"2026-10-05", PyFloat.finite 5, "Bus", none⟩] ⟨2026, 10, 7⟩ =
      Except.ok (some ([("Bus", PyFloat.finite 5),
          ("Food", PyFloat.finite 10)], PyFloat.finite 15)) ∧
    (totalOfOpt (some ([("Bus", PyFloat.finite 5),
          ("Food", PyFloat.finite 10)], PyFloat.finite 15)) =
        (([⟨"2026-10-07", PyFloat.finite 10, "Food", some "coffee"⟩,
           ⟨"2026-09-01", PyFloat.finite 99, "Food", some "old"⟩,
           ⟨"2026-10-05", PyFloat.finite 5, "Bus", none⟩].filter
            (inWindow ⟨2026, 10, 7⟩)).map Expense.amount).sum ∧
      ((some ([("Bus", PyFloat.finite 5), ("Food", PyFloat.finite 10)],
          PyFloat.finite 15) :
            Option (List (String × PyFloat) × PyFloat)) = none →
        [⟨"2026-10-07", PyFloat.finite 10, "Food", some "coffee"⟩,
         ⟨"2026-09-01", PyFloat.finite 99, "Food", some "old"⟩,
         ⟨"2026-10-05", PyFloat.finite 5, "Bus", none⟩].filter
          (inWindow ⟨2026, 10, 7⟩) = []) ∧
      tableOfOpt (some ([("Bus", PyFloat.finite 5),
          ("Food", PyFloat.finite 10)], PyFloat.finite 15)) =
        sortPairsByKey (groupTotals
          ([⟨"2026-10-07", PyFloat.finite 10, "Food", some "coffee"⟩,
            ⟨"2026-09-01", PyFloat.finite 99, "Food", some "old"⟩,
            ⟨"2026-10-05", PyFloat.finite 5, "Bus", none⟩].filter
            (inWindow ⟨2026, 10, 7⟩)))) := by
  have hok : weeklySummary
      [⟨"2026-10-07", PyFloat.finite 10, "Food", some "coffee"⟩,
       ⟨"2026-09-01", PyFloat.finite 99, "Food", some "old"⟩,
       ⟨"2026-10-05", PyFloat.finite 5, "Bus", none⟩] ⟨2026, 10, 7⟩ =
      Except.ok (some ([("Bus", PyFloat.finite 5),
        ("Food", PyFloat.finite 10)], PyFloat.finite 15)) := by
    have hf : filterWeekly
        [⟨"2026-10-07", PyFloat.finite 10, "Food", some "coffee"⟩,
         ⟨"2026-09-01", PyFloat.finite 99, "Food", some "old"⟩,
         ⟨"2026-10-05", PyFloat.finite 5, "Bus", none⟩] ⟨2026, 10, 7⟩ =
        Except.ok [⟨"2026-10-07", PyFloat.finite 10, "Food", some "coffee"⟩,
          ⟨"2026-10-05", PyFloat.finite 5, "Bus", none⟩] := rfl
    have hlt : ltChars ['B', 'u', 's'] ['F', 'o', 'o', 'd'] = true := rfl
    rw [weeklySummary, hf]
    norm_num [groupTotals, addToGroup, sortPairsByKey, insertPairAsc,
      sumSortedTotals, PyFloat.finite_add, hlt]
    intro hcon
    exact absurd hcon (by simp)
  exact ⟨hok, C1_weeklySummary_total _ _ _ hok⟩

/-- C2: appending to a fresh (empty) store and reloading the backing file
yields exactly one record, whose amount, category and description are the
ones given and whose date is the current local date formatted `YYYY-MM-DD`
(and parses back to that date when the system date is valid). -/
theorem C2_add_then_load (a : PyFloat) (c ds : String) (t : Date) :
    loadExpenses (addExpense [] a c ds t).2 =
      Except.ok [mkExpenseRecord t a c ds] ∧
    (mkExpenseRecord t a c ds).amount = a ∧
    (mkExpenseRecord t a c ds).category = c ∧
    (mkExpenseRecord t a c ds).description = some ds ∧
    (mkExpenseRecord t a c ds).date = formatDate t ∧
    (ValidDate t → parseDate (mkExpenseRecord t a c ds).date = some t) :=
  ⟨rfl, rfl, rfl, rfl, rfl, fun hv => parseDate_formatDate t hv⟩

/-- C2 witness: a concrete `$12.50` Food expense added on 2026-10-07
round-trips through the file with its formatted date parsing back. -/
theorem C2_add_then_load_witness :
    loadExpenses (addExpense [] (PyFloat.finite (25 / 2)) "Food" "lunch"
        ⟨2026, 10, 7⟩).2 =
      Except.ok [mkExpenseRecord ⟨2026, 10, 7⟩ (PyFloat.finite (25 / 2))
        "Food" "lunch"] ∧
    parseDate (mkExpenseRecord ⟨2026, 10, 7⟩ (PyFloat.finite (25 / 2))
        "Food" "lunch").date = some ⟨2026, 10, 7⟩ :=
  ⟨(C2_add_then_load (PyFloat.finite (25 / 2)) "Food" "lunch" ⟨2026, 10, 7⟩).1,
    (C2_add_then_load (PyFloat.finite (25 / 2)) "Food" "lunch"
      ⟨2026, 10, 7⟩).2.2.2.2.2 (by decide)⟩

/-- C3: persisting the in-memory sequence and reloading it returns the
identical sequence — same length, order and field values — both at the file
level (`save_expenses` / `load_expenses`) and through the JSON
serialisation itself (`encodeExpenses` / `decodeExpenses`). -/
theorem C3_save_load_roundtrip (es : List Expense) :
    loadExpenses (saveExpenses es) = Except.ok es ∧
    decodeExpenses (encodeExpenses es) = some es :=
  ⟨rfl, decodeExpenses_encodeExpenses es⟩

/-- C4: the rows `list_all_expenses` prints are sorted by the date field in
descending order, and any two records with equal dates keep their original
(insertion) relative order: filtering the sorted list to any fixed date
gives exactly the same sublist as filtering the stored sequence. -/
theorem C4_listAll_sorted_stable (es : List Expense)
    (rows : List (String × String × PyFloat × String)) (d : String)
    (h : listAllRows es = some rows) :
    List.Pairwise (fun r₁ r₂ => r₂.1 ≤ r₁.1) rows ∧
    (sortByDateDesc es).filter (fun e => e.date == d) =
      es.filter (fun e => e.date == d) := by
  refine ⟨?_, filter_sortByDateDesc es d⟩
  have hrows : rows = (sortByDateDesc es).map renderRow := by
    rw [listAllRows] at h
    by_cases hemp : es = []
    · rw [if_pos hemp] at h
      exact absurd h (by simp)
    · rw [if_neg hemp] at h
      simpa using h.symm
  subst hrows
  refine List.Pairwise.map renderRow ?_ (pairwise_sortByDateDesc es)
  exact fun a b hab => hab

/-- C4 witness: three concrete records, two sharing the date 2026-10-05;
the printed rows are date-descending and the tied records keep their
insertion order (A before C). -/
theorem C4_listAll_sorted_stable_witness :
    listAllRows
      [⟨"2026-10-05", PyFloat.finite 1, "A", some "x"⟩,
       ⟨"2026-10-07", PyFloat.finite 2, "B", none⟩,
       ⟨"2026-10-05", PyFloat.finite 3, "C", some "y"⟩] =
      some [("2026-10-07", "B", PyFloat.finite 2, ""),
        ("2026-10-05", "A", PyFloat.finite 1, "x"),
        ("2026-10-05", "C", PyFloat.finite 3, "y")] ∧
    (List.Pairwise (fun r₁ r₂ => r₂.1 ≤ r₁.1)
      [("2026-10-07", "B", PyFloat.finite 2, ""),
        ("2026-10-05", "A", PyFloat.finite 1, "x"),
        ("2026-10-05", "C", PyFloat.finite 3, "y")] ∧
     (sortByDateDesc
        [⟨"2026-10-05", PyFloat.finite 1, "A", some "x"⟩,
         ⟨"2026-10-07", PyFloat.finite 2, "B", none⟩,
         ⟨"2026-10-05", PyFloat.finite 3, "C", some "y"⟩]).filter
        (fun e => e.date == "2026-10-05") =
      [⟨"2026-10-05", PyFloat.finite 1, "A", some "x"⟩,
       ⟨"2026-10-07", PyFloat.finite 2, "B", none⟩,
       ⟨"2026-10-05", PyFloat.finite 3, "C", some "y"⟩].filter
        (fun e => e.date == "2026-10-05")) :=
  ⟨rfl, C4_listAll_sorted_stable _ _ "2026-10-05" rfl⟩

/-- C5 counterexample: the claim says a non-finite amount fails validation
and is never appended, but `float('inf')` succeeds in the source, so the
interactive add flow appends a record with amount `inf` — the store is not
unchanged. -/
theorem C5_counterexample :
    pyFloatOfString "inf" = some PyFloat.inf ∧
    (menuStep [] none "1" "inf" "Food" "" ⟨2026, 10, 7⟩).1 =
      [mkExpenseRecord ⟨2026, 10, 7⟩ PyFloat.inf "Food" ""] ∧
    (menuStep [] none "1" "inf" "Food" "" ⟨2026, 10, 7⟩).1 ≠ [] :=
  ⟨rfl, rfl, by
    intro hcon
    exact absurd (show ([mkExpenseRecord ⟨2026, 10, 7⟩ PyFloat.inf "Food" ""] :
      List Expense) = [] from hcon) (by simp)⟩

/-- C5 amended: `add_expense` validates only that the amount parses as a
number — on a non-numeric input the `ValueError` is caught by the
interactive caller, which shows an error and continues with store and file
untouched; any parseable amount, including `inf` and `nan`, is accepted and
appended (and the file rewritten). -/
theorem C5_amended_addFlow (es : List Expense) (f : FileState)
    (a c ds : String) (t : Date) :
    menuStep es f "1" a c ds t =
      match pyFloatOfString a with
      | none => (es, f, true, StepOut.cont)
      | some v =>
        (es ++ [mkExpenseRecord t v c ds],
          some (FileContent.records (es ++ [mkExpenseRecord t v c ds])),
          false, StepOut.cont) := by
  rw [menuStep, if_pos rfl]
  cases pyFloatOfString a <;> rfl

/-- C6 counterexample: the claim says stored amounts are never negative,
but entering `-5` interactively stores a record with amount `-5`. -/
theorem C6_counterexample :
    pyFloatOfString "-5" = some (PyFloat.finite (-5)) ∧
    (menuStep [] none "1" "-5" "Food" "" ⟨2026, 10, 7⟩).1 =
      [mkExpenseRecord ⟨2026, 10, 7⟩ (PyFloat.finite (-5)) "Food" ""] ∧
    ¬ (0 : ℚ) ≤ -5 :=
  ⟨rfl, rfl, by norm_num⟩

/-- C6 amended: in every store reachable from empty by `add_expense` calls
(with valid system dates), each record's date field parses as a valid
calendar date; the amount field is stored exactly as passed and may be
negative or non-finite — the code never validates sign or finiteness. -/
theorem C6_amended_dates_valid (calls : List AddCall) (e : Expense)
    (hv : ∀ c ∈ calls, ValidDate c.today) (he : e ∈ runAdds [] calls) :
    (parseDate e.date).isSome = true := by
  rcases mem_runAdds calls [] e he with hmem | ⟨c, hc, rfl⟩
  · simp at hmem
  · show (parseDate (formatDate c.today)).isSome = true
    rw [parseDate_formatDate c.today (hv c hc)]
    rfl

/-- C6 amended witness: one concrete add on 2026-10-07; the stored record's
date parses. -/
theorem C6_amended_dates_valid_witness :
    (parseDate (mkExpenseRecord ⟨2026, 10, 7⟩ (PyFloat.finite 5) "Food"
      "").date).isSome = true :=
  C6_amended_dates_valid
    [⟨PyFloat.finite 5, "Food", "", ⟨2026, 10, 7⟩⟩]
    (mkExpenseRecord ⟨2026, 10, 7⟩ (PyFloat.finite 5) "Food" "")
    (by decide) (by decide)

/-- C7: `load_expenses` returns the parsed contents when the file exists,
an empty sequence when it is absent, and propagates the parse error (no
recovery) when the content is malformed. -/
theorem C7_loadExpenses_spec (f : FileState) :
    loadExpenses f =
      match f with
      | none => Except.ok []
      | some (FileContent.records es) => Except.ok es
      | some FileContent.malformed =>
        Except.error ParseErr.parseError := by
  cases f with
  | none => rfl
  | some c => cases c <;> rfl

/-- C8: a non-numeric interactive amount leaves the in-memory sequence and
the backing file untouched, shows the error message, and the menu loop
continues. -/
theorem C8_invalid_amount_no_change (es : List Expense) (f : FileState)
    (a c ds : String) (t : Date) (h : pyFloatOfString a = none) :
    menuStep es f "1" a c ds t = (es, f, true, StepOut.cont) := by
  rw [menuStep, if_pos rfl, h]

/-- C8 witness: the concrete input `abc` does not parse and the step leaves
an empty store, an absent file, shows the message, and continues. -/
theorem C8_invalid_amount_no_change_witness :
    pyFloatOfString "abc" = none ∧
    menuStep [] none "1" "abc" "Food" "lunch" ⟨2026, 10, 7⟩ =
      ([], none, true, StepOut.cont) :=
  ⟨rfl, C8_invalid_amount_no_change [] none "abc" "Food" "lunch"
    ⟨2026, 10, 7⟩ rfl⟩

/-- C9: the weekly-summary and list-all menu choices are read-only: after
either one the in-memory sequence is unchanged and the backing file is not
written (even when `weekly_summary` dies on a malformed stored date). -/
theorem C9_summary_list_readonly (es : List Expense) (f : FileState)
    (a c ds : String) (t : Date) :
    (menuStep es f "2" a c ds t).1 = es ∧
    (menuStep es f "2" a c ds t).2.1 = f ∧
    (menuStep es f "3" a c ds t).1 = es ∧
    (menuStep es f "3" a c ds t).2.1 = f := by
  refine ⟨?_, ?_, rfl, rfl⟩ <;>
    · rw [menuStep, if_neg (by decide), if_pos rfl]
      cases weeklySummary es t <;> rfl

/-- C10: `list_all_expenses` renders every non-empty store — a record with
no description key reads as the empty string via `.get('description', '')`
— and each row shows at most the first 28 characters of the description. -/
theorem C10_missing_description_safe (es : List Expense) (e : Expense)
    (hne : es ≠ []) :
    listAllRows es = some ((sortByDateDesc es).map renderRow) ∧
    (renderRow e).2.2.2 = String.mk ((e.description.getD "").data.take 28) ∧
    ((renderRow e).2.2.2).length ≤ 28 := by
  refine ⟨by rw [listAllRows, if_neg hne], rfl, ?_⟩
  show ((e.description.getD "").data.take 28).length ≤ 28
  exact List.length_take_le 28 (e.description.getD "").data

/-- C10 witness: a store whose single record lacks a description renders
fine, with an empty truncated description. -/
theorem C10_missing_description_safe_witness :
    listAllRows [⟨"2026-10-07", PyFloat.finite 1, "Food", none⟩] =
      some ((sortByDateDesc
        [⟨"2026-10-07", PyFloat.finite 1, "Food", none⟩]).map renderRow) ∧
    (renderRow ⟨"2026-10-07", PyFloat.finite 1, "Food", none⟩).2.2.2 =
      String.mk ((Option.getD (none : Option String) "").data.take 28) ∧
    ((renderRow ⟨"2026-10-07", PyFloat.finite 1, "Food",
      none⟩).2.2.2).length ≤ 28 :=
  C10_missing_description_safe
    [⟨"2026-10-07", PyFloat.finite 1, "Food", none⟩]
    ⟨"2026-10-07", PyFloat.finite 1, "Food", none⟩ (by simp)
